import Mathlib

/-!
# Midcutter: the smoothing loop of `MidcutterAudioProcessor::processBlock`

A shallow embedding of `Source/PluginProcessor.cpp`.

* Samples are elements of an arbitrary linearly ordered field `α` (exact
  arithmetic; `ℚ` for the evaluated examples, `ℝ` is another instance).  This
  is the reading of the code without the roundings of `float`.
* The namespace `Binary32` holds a second reading of the arithmetic of the
  sample loop, in which every `float` operation rounds its exact result to
  the nearest IEEE 754 binary32 number.
* `juce::AudioBuffer<float>` is a list of channels, each channel the list of
  its samples; `buffer.getNumSamples()` is the length of the channel at hand
  (in a JUCE buffer all channels have that one length).
* The two `for` loops over channel numbers are runs of the loop body over the
  list of the numbers visited, in the order visited.
* The member array `prevAvg` is a list indexed by channel number.
* Reading a channel of the buffer or an entry of `prevAvg` that does not
  exist has no defined result in the source; the embedding returns `none`.
-/

namespace Midcutter

variable {α : Type} [LinearOrderedField α]

/-! ## Data model -/

/-- The buffer handed to `processBlock`: one list of samples per channel. -/
abbrev AudioBuffer (α : Type) := List (List α)

/-- The members of `MidcutterAudioProcessor` that `processBlock` reads or
writes: the two channel counts of the bus layout and the per-channel running
average `prevAvg`. -/
@[ext]
structure MidcutterAudioProcessor (α : Type) where
  totalNumInputChannels : Nat
  totalNumOutputChannels : Nat
  prevAvg : List α

/-- Modelled from the spec: the declaration and initial value of the member
array `prevAvg` live in `PluginProcessor.h`, which is not among the sources;
the spec says every entry starts at the sentinel `-1`. -/
def freshProcessor (numIn numOut size : Nat) : MidcutterAudioProcessor α :=
  { totalNumInputChannels := numIn
    totalNumOutputChannels := numOut
    prevAvg := List.replicate size (-1) }

/-! ## The code -/

/-- `const float smoothingFactorUp = 0.1;` -/
def smoothingFactorUp : α := 0.1

/-- `const float smoothingFactorDown = 0.7;` -/
def smoothingFactorDown : α := 0.7

/-- `calcNextAvg` (PluginProcessor.cpp, lines 212-215), in exact arithmetic;
`Binary32.calcNextAvg` is the same function with the roundings of `float`. -/
def calcNextAvg (prevAvg smoothingFactor currentValue : α) : α :=
  let inverseSmoothingFactor := 1.0 - smoothingFactor
  smoothingFactor * prevAvg + inverseSmoothingFactor * currentValue

/-- Body of the sample loop (lines 163-175) for one index `i`: from
`prevAvg[channel]` and `channelData[i]` before the iteration to the pair
`(channelData[i], prevAvg[channel])` after it.  In the sentinel branch the
code stores `squared` in `prevAvg[channel]` and hits `continue`, so
`channelData[i]` keeps the value it had. -/
def sampleStep (prev sample : α) : α × α :=
  let squared := sample * sample
  if prev = -1 then
    (sample, squared)
  else
    let smoothingFactor : α :=
      if squared > prev then smoothingFactorUp else smoothingFactorDown
    let avg := calcNextAvg prev smoothingFactor squared
    (avg, avg)

/-- The sample loop `for (int i = 0; i < bufLength; ++i)` (lines 162-176) over
one channel: the samples are visited from index 0 upwards, the running
average is threaded through.  Returns the channel data and `prevAvg[channel]`
after the loop. -/
def sampleLoop (prev : α) : List α → List α × α
  | [] => ([], prev)
  | sample :: rest =>
    let r := sampleStep prev sample
    let t := sampleLoop r.2 rest
    (r.1 :: t.1, t.2)

/-- `buffer.clear (i, 0, buffer.getNumSamples())`: every sample of channel `i`
becomes zero. -/
def clearChannel (buffer : AudioBuffer α) (i : Nat) : Option (AudioBuffer α) :=
  match buffer[i]? with
  | some channelData => some (buffer.set i (List.replicate channelData.length 0))
  | none => none

/-- The body of `clearChannel` run for the channel numbers of `order`, one
after the other. -/
def clearChannels : List Nat → AudioBuffer α → Option (AudioBuffer α)
  | [], buffer => some buffer
  | i :: rest, buffer =>
    match clearChannel buffer i with
    | some b => clearChannels rest b
    | none => none

/-- Body of the channel loop (lines 160-176) for one `channel`: run the sample
loop on that channel of the buffer with `prevAvg[channel]`. -/
def smoothChannel (s : MidcutterAudioProcessor α × AudioBuffer α) (channel : Nat) :
    Option (MidcutterAudioProcessor α × AudioBuffer α) :=
  match s.2[channel]?, s.1.prevAvg[channel]? with
  | some channelData, some prev =>
    let r := sampleLoop prev channelData
    some ({ s.1 with prevAvg := s.1.prevAvg.set channel r.2 }, s.2.set channel r.1)
  | _, _ => none

/-- The body of the channel loop run for the channel numbers of `order`, one
after the other. -/
def smoothChannels : List Nat → MidcutterAudioProcessor α × AudioBuffer α →
    Option (MidcutterAudioProcessor α × AudioBuffer α)
  | [], s => some s
  | channel :: rest, s =>
    match smoothChannel s channel with
    | some t => smoothChannels rest t
    | none => none

/-- The loop `for (auto i = totalNumInputChannels; i < totalNumOutputChannels; ++i)`
(lines 146-147). -/
def clearLoop (p : MidcutterAudioProcessor α) (buffer : AudioBuffer α) :
    Option (AudioBuffer α) :=
  clearChannels
    (List.range' p.totalNumInputChannels (p.totalNumOutputChannels - p.totalNumInputChannels))
    buffer

/-- The loop `for (int channel = 0; channel < totalNumInputChannels; ++channel)`
(lines 158-177). -/
def smoothingLoop (s : MidcutterAudioProcessor α × AudioBuffer α) :
    Option (MidcutterAudioProcessor α × AudioBuffer α) :=
  smoothChannels (List.range s.1.totalNumInputChannels) s

/-- `MidcutterAudioProcessor::processBlock` (lines 134-178): the clearing loop
followed by the smoothing loop.  The MIDI buffer is not used by the code. -/
def processBlock (p : MidcutterAudioProcessor α) (buffer : AudioBuffer α) :
    Option (MidcutterAudioProcessor α × AudioBuffer α) :=
  match clearLoop p buffer with
  | some b => smoothingLoop (p, b)
  | none => none

/-- The code of `processBlock` with the channel loop visiting the channel
numbers in the order given by `order`; `processBlock` is the instance
`order = [0, 1, ..., totalNumInputChannels - 1]`. -/
def processBlockIn (order : List Nat) (p : MidcutterAudioProcessor α)
    (buffer : AudioBuffer α) : Option (MidcutterAudioProcessor α × AudioBuffer α) :=
  match clearLoop p buffer with
  | some b => smoothChannels order (p, b)
  | none => none

/-- `MidcutterAudioProcessor::prepareToPlay` (lines 96-100): the body is
empty. -/
def prepareToPlay (_sampleRate : α) (_samplesPerBlock : Int)
    (p : MidcutterAudioProcessor α) : MidcutterAudioProcessor α :=
  p

/-- `MidcutterAudioProcessor::releaseResources` (lines 102-106): the body is
empty. -/
def releaseResources (p : MidcutterAudioProcessor α) : MidcutterAudioProcessor α :=
  p

/-! ## The arithmetic of the sample loop in binary32

The values are the rational numbers that are finite IEEE 754 numbers.  Each
`float` operation of the source is its exact result rounded to the nearest
binary32 number, ties to even (the default rounding mode, one rounding per
operation).  A result outside the normal range of the format (an overflow to
infinity, or a subnormal result, which `juce::ScopedNoDenormals` flushes) is
not a value of this reading: the operation returns `none`. -/

namespace Binary32

/-- The integer nearest to `q`, the even one of the two when `q` lies half way
between two integers. -/
def roundHalfEven (q : ℚ) : Int :=
  let f := ⌊q⌋
  if q - f < 1 / 2 then f
  else if 1 / 2 < q - f then f + 1
  else if f % 2 = 0 then f else f + 1

/-- The number with `prec` significant binary digits nearest to `q`, ties to
even, the exponent unbounded: with `2^e <= |q| < 2^(e+1)`, the multiple of
`2^(e - (prec - 1))` nearest to `q`. -/
def roundBinary (prec : Nat) (q : ℚ) : ℚ :=
  if q = 0 then 0
  else
    let ulp : ℚ := 2 ^ (Int.log 2 |q| - ((prec : Int) - 1))
    roundHalfEven (q / ulp) * ulp

/-- Rounding to a binary format with `prec` significant digits and normal
exponents `emin .. emax`; `none` when `q` is below the normal range or the
rounded value is beyond the largest finite number. -/
def roundRange (prec : Nat) (emin emax : Int) (q : ℚ) : Option ℚ :=
  if q = 0 then some 0
  else if (2 : ℚ) ^ emin ≤ |q| ∧ |roundBinary prec q| < 2 ^ (emax + 1) then
    some (roundBinary prec q)
  else none

/-- Rounding to `float` (binary32: 24 significant digits, exponents -126 .. 127). -/
def toFloat (q : ℚ) : Option ℚ := roundRange 24 (-126) 127 q

/-- Rounding to `double` (binary64: 53 significant digits, exponents -1022 .. 1023). -/
def toDouble (q : ℚ) : Option ℚ := roundRange 53 (-1022) 1023 q

/-- `const float smoothingFactorUp = 0.1;`: the `double` literal `0.1`
converted to `float`. -/
def smoothingFactorUp : Option ℚ := (toDouble (1 / 10)).bind toFloat

/-- `const float smoothingFactorDown = 0.7;`: the `double` literal `0.7`
converted to `float`. -/
def smoothingFactorDown : Option ℚ := (toDouble (7 / 10)).bind toFloat

/-- `calcNextAvg` (lines 212-215) on `float` arguments: `1.0 - smoothingFactor`
is a `double` subtraction whose result is converted to `float`; the two
products and the sum are `float` operations. -/
def calcNextAvg (prevAvg smoothingFactor currentValue : ℚ) : Option ℚ := do
  let difference ← toDouble (1 - smoothingFactor)
  let inverseSmoothingFactor ← toFloat difference
  let left ← toFloat (smoothingFactor * prevAvg)
  let right ← toFloat (inverseSmoothingFactor * currentValue)
  toFloat (left + right)

/-- Body of the sample loop (lines 163-175) on `float` values `prev` and
`sample`: the pair `(channelData[i], prevAvg[channel])` after the
iteration. -/
def sampleStep (prev sample : ℚ) : Option (ℚ × ℚ) := do
  let up ← smoothingFactorUp
  let down ← smoothingFactorDown
  let squared ← toFloat (sample * sample)
  if prev = -1 then
    pure (sample, squared)
  else
    let smoothingFactor := if squared > prev then up else down
    let avg ← calcNextAvg prev smoothingFactor squared
    pure (avg, avg)

/-- The sample loop (lines 162-176) over one channel of `float` samples. -/
def sampleLoop (prev : ℚ) : List ℚ → Option (List ℚ × ℚ)
  | [] => some ([], prev)
  | sample :: rest => do
    let r ← sampleStep prev sample
    let t ← sampleLoop r.2 rest
    pure (r.1 :: t.1, t.2)

end Binary32

/-! ## The recurrence as the specification words it -/

/-- The running average after one more sample, as the specification states
the `advance` operation: the squared sample on a channel still at the
sentinel, otherwise the weighted mean with weight 0.7 for the previous
average when the squared sample does not exceed it and 0.1 when it does. -/
def advanceAvg (prevAvg sample : α) : α :=
  if prevAvg = -1 then sample * sample
  else if sample * sample ≤ prevAvg then 0.7 * prevAvg + (1 - 0.7) * (sample * sample)
  else 0.1 * prevAvg + (1 - 0.1) * (sample * sample)

/-- The running average after feeding `samples` in order, starting from
`prevAvg`. -/
def runningAvg (prevAvg : α) (samples : List α) : α :=
  samples.foldl advanceAvg prevAvg

/-! ## The sample step -/

theorem sampleStep_sentinel (x : α) : sampleStep (-1) x = (x, x * x) := by
  simp [sampleStep]

theorem sampleStep_up (p x : α) (hp : p ≠ -1) (h : x * x > p) :
    sampleStep p x = (0.1 * p + 0.9 * (x * x), 0.1 * p + 0.9 * (x * x)) := by
  simp only [sampleStep, if_neg hp, if_pos h, calcNextAvg, smoothingFactorUp]
  norm_num

theorem sampleStep_down (p x : α) (hp : p ≠ -1) (h : x * x ≤ p) :
    sampleStep p x = (0.7 * p + 0.3 * (x * x), 0.7 * p + 0.3 * (x * x)) := by
  simp only [sampleStep, if_neg hp, if_neg (not_lt.mpr h), calcNextAvg, smoothingFactorDown,
    gt_iff_lt]
  norm_num

theorem sampleStep_snd (p x : α) : (sampleStep p x).2 = advanceAvg p x := by
  by_cases hp : p = -1
  · subst hp
    simp [sampleStep_sentinel, advanceAvg]
  · by_cases h : x * x ≤ p
    · rw [sampleStep_down p x hp h]
      simp only [advanceAvg, if_neg hp, if_pos h]
      norm_num
    · rw [sampleStep_up p x hp (not_le.mp h)]
      simp only [advanceAvg, if_neg hp, if_neg h]
      norm_num

theorem sampleStep_fst (p x : α) :
    (sampleStep p x).1 = if p = -1 then x else advanceAvg p x := by
  by_cases hp : p = -1
  · subst hp
    simp [sampleStep_sentinel]
  · rw [if_neg hp, ← sampleStep_snd]
    simp [sampleStep, hp]

theorem advanceAvg_nonneg (p x : α) (hp : p = -1 ∨ 0 ≤ p) : 0 ≤ advanceAvg p x := by
  have hs : 0 ≤ x * x := mul_self_nonneg x
  unfold advanceAvg
  split_ifs with h1 h2
  · exact hs
  · have h0 : 0 ≤ p := by
      rcases hp with hp | hp
      · exact absurd hp h1
      · exact hp
    have : (0 : α) ≤ 0.7 * p + (1 - 0.7) * (x * x) := by
      have ha : (0 : α) ≤ 0.7 := by norm_num
      have hb : (0 : α) ≤ 1 - 0.7 := by norm_num
      positivity
    exact this
  · have h0 : 0 ≤ p := by
      rcases hp with hp | hp
      · exact absurd hp h1
      · exact hp
    have : (0 : α) ≤ 0.1 * p + (1 - 0.1) * (x * x) := by
      have ha : (0 : α) ≤ 0.1 := by norm_num
      have hb : (0 : α) ≤ 1 - 0.1 := by norm_num
      positivity
    exact this

/-! ## The sample loop -/

theorem sampleLoop_nil (p : α) : sampleLoop p [] = ([], p) := rfl

theorem sampleLoop_cons (p x : α) (xs : List α) :
    sampleLoop p (x :: xs) =
      ((sampleStep p x).1 :: (sampleLoop (sampleStep p x).2 xs).1,
        (sampleLoop (sampleStep p x).2 xs).2) := rfl

theorem sampleLoop_length (p : α) (xs : List α) : (sampleLoop p xs).1.length = xs.length := by
  induction xs generalizing p with
  | nil => rfl
  | cons x xs ih => simp [sampleLoop_cons, ih]

theorem sampleLoop_snd (p : α) (xs : List α) : (sampleLoop p xs).2 = runningAvg p xs := by
  induction xs generalizing p with
  | nil => rfl
  | cons x xs ih => simp [sampleLoop_cons, ih, runningAvg, sampleStep_snd]

theorem sampleLoop_append (p : α) (a b : List α) :
    sampleLoop p (a ++ b) =
      ((sampleLoop p a).1 ++ (sampleLoop (sampleLoop p a).2 b).1,
        (sampleLoop (sampleLoop p a).2 b).2) := by
  induction a generalizing p with
  | nil => simp [sampleLoop_nil]
  | cons x xs ih => simp [sampleLoop_cons, ih]

theorem runningAvg_append (p : α) (a b : List α) :
    runningAvg p (a ++ b) = runningAvg (runningAvg p a) b := by
  simp [runningAvg, List.foldl_append]

theorem runningAvg_take_succ (p : α) (xs : List α) (i : Nat) (hi : i < xs.length) :
    runningAvg p (xs.take (i + 1)) = advanceAvg (runningAvg p (xs.take i)) xs[i] := by
  rw [List.take_succ, runningAvg_append]
  simp [List.getElem?_eq_getElem hi, runningAvg]

theorem sampleLoop_getElem? (p : α) (xs : List α) (i : Nat) :
    (sampleLoop p xs).1[i]? =
      (xs[i]?).map (fun x => (sampleStep (runningAvg p (xs.take i)) x).1) := by
  induction xs generalizing p i with
  | nil => simp [sampleLoop_nil]
  | cons x xs ih =>
    cases i with
    | zero => simp [sampleLoop_cons, runningAvg]
    | succ j => simp [sampleLoop_cons, ih, runningAvg, sampleStep_snd]

theorem runningAvg_nonneg (p : α) (xs : List α) (hp : p = -1 ∨ 0 ≤ p) (hx : xs ≠ []) :
    0 ≤ runningAvg p xs := by
  induction xs generalizing p with
  | nil => exact absurd rfl hx
  | cons x xs ih =>
    have h1 : 0 ≤ advanceAvg p x := advanceAvg_nonneg p x hp
    cases xs with
    | nil => simpa [runningAvg] using h1
    | cons y ys =>
      have := ih (advanceAvg p x) (Or.inr h1) (by simp)
      simpa [runningAvg] using this

/-! ## The clearing loop -/

theorem exists_getElem?_of_lt {β : Type} (l : List β) (c : Nat) (h : c < l.length) :
    ∃ x, l[c]? = some x :=
  ⟨l[c], List.getElem?_eq_getElem h⟩


theorem clearChannel_eq (buffer : AudioBuffer α) (i : Nat) (d : List α)
    (h : buffer[i]? = some d) :
    clearChannel buffer i = some (buffer.set i (List.replicate d.length 0)) := by
  simp [clearChannel, h]

theorem clearChannels_spec (order : List Nat) (buffer : AudioBuffer α)
    (hr : ∀ c ∈ order, c < buffer.length) (hn : order.Nodup) :
    ∃ out, clearChannels order buffer = some out ∧ out.length = buffer.length ∧
      (∀ c d, c ∈ order → buffer[c]? = some d → out[c]? = some (List.replicate d.length 0)) ∧
      (∀ c, c ∉ order → out[c]? = buffer[c]?) := by
  induction order generalizing buffer with
  | nil => exact ⟨buffer, rfl, rfl, by simp, by simp⟩
  | cons i rest ih =>
    have hi : i < buffer.length := hr i (List.mem_cons_self _ _)
    have hget : buffer[i]? = some buffer[i] := List.getElem?_eq_getElem hi
    obtain ⟨hirest, hnrest⟩ := List.nodup_cons.mp hn
    obtain ⟨out, ho, hlen, hin, hout⟩ :=
      ih (buffer.set i (List.replicate buffer[i].length 0))
        (fun c hc => by simpa using hr c (List.mem_cons_of_mem _ hc)) hnrest
    refine ⟨out, ?_, by simpa using hlen, ?_, ?_⟩
    · simp only [clearChannels, clearChannel_eq buffer i _ hget]
      exact ho
    · intro c d hc hd
      by_cases hci : c = i
      · subst hci
        rw [hout c hirest, List.getElem?_set_self hi]
        rw [hget] at hd
        cases hd
        rfl
      · have hc2 : c ∈ rest := by
          rcases List.mem_cons.mp hc with h | h
          · exact absurd h hci
          · exact h
        apply hin c d hc2
        rw [List.getElem?_set_ne (Ne.symm hci)]
        exact hd
    · intro c hc
      have hci : c ≠ i := fun h => hc (h ▸ List.mem_cons_self _ _)
      have hc2 : c ∉ rest := fun h => hc (List.mem_cons_of_mem _ h)
      rw [hout c hc2, List.getElem?_set_ne (Ne.symm hci)]

/-! ## The channel loop -/

theorem smoothChannel_eq (s : MidcutterAudioProcessor α × AudioBuffer α) (c : Nat)
    (d : List α) (p : α) (hd : s.2[c]? = some d) (hp : s.1.prevAvg[c]? = some p) :
    smoothChannel s c =
      some ({ s.1 with prevAvg := s.1.prevAvg.set c (sampleLoop p d).2 },
        s.2.set c (sampleLoop p d).1) := by
  simp [smoothChannel, hd, hp]

theorem smoothChannels_spec (order : List Nat)
    (s : MidcutterAudioProcessor α × AudioBuffer α)
    (hb : ∀ c ∈ order, c < s.2.length) (hp : ∀ c ∈ order, c < s.1.prevAvg.length)
    (hn : order.Nodup) :
    ∃ t, smoothChannels order s = some t ∧
      t.1.totalNumInputChannels = s.1.totalNumInputChannels ∧
      t.1.totalNumOutputChannels = s.1.totalNumOutputChannels ∧
      t.1.prevAvg.length = s.1.prevAvg.length ∧ t.2.length = s.2.length ∧
      (∀ c d p, c ∈ order → s.2[c]? = some d → s.1.prevAvg[c]? = some p →
        t.2[c]? = some (sampleLoop p d).1 ∧ t.1.prevAvg[c]? = some (sampleLoop p d).2) ∧
      (∀ c, c ∉ order → t.2[c]? = s.2[c]? ∧ t.1.prevAvg[c]? = s.1.prevAvg[c]?) := by
  induction order generalizing s with
  | nil => exact ⟨s, rfl, rfl, rfl, rfl, rfl, by simp, by simp⟩
  | cons i rest ih =>
    have hib : i < s.2.length := hb i (List.mem_cons_self _ _)
    have hip : i < s.1.prevAvg.length := hp i (List.mem_cons_self _ _)
    have hgb : s.2[i]? = some s.2[i] := List.getElem?_eq_getElem hib
    have hgp : s.1.prevAvg[i]? = some s.1.prevAvg[i] := List.getElem?_eq_getElem hip
    obtain ⟨hirest, hnrest⟩ := List.nodup_cons.mp hn
    obtain ⟨t, ht, h1, h2, h3, h4, hin, hout⟩ :=
      ih ({ s.1 with prevAvg := s.1.prevAvg.set i (sampleLoop s.1.prevAvg[i] s.2[i]).2 },
          s.2.set i (sampleLoop s.1.prevAvg[i] s.2[i]).1)
        (fun c hc => by simpa using hb c (List.mem_cons_of_mem _ hc))
        (fun c hc => by simpa using hp c (List.mem_cons_of_mem _ hc)) hnrest
    refine ⟨t, ?_, by simpa using h1, by simpa using h2, by simpa using h3,
      by simpa using h4, ?_, ?_⟩
    · simp only [smoothChannels, smoothChannel_eq s i _ _ hgb hgp]
      exact ht
    · intro c d p hc hd hpc
      by_cases hci : c = i
      · subst hci
        obtain ⟨e1, e2⟩ := hout c hirest
        rw [e1, e2]
        rw [hgb] at hd
        rw [hgp] at hpc
        cases hd
        cases hpc
        exact ⟨List.getElem?_set_self hib, List.getElem?_set_self hip⟩
      · have hc2 : c ∈ rest := by
          rcases List.mem_cons.mp hc with h | h
          · exact absurd h hci
          · exact h
        apply hin c d p hc2
        · simpa [List.getElem?_set_ne (Ne.symm hci)] using hd
        · simpa [List.getElem?_set_ne (Ne.symm hci)] using hpc
    · intro c hc
      have hci : c ≠ i := fun h => hc (h ▸ List.mem_cons_self _ _)
      have hc2 : c ∉ rest := fun h => hc (List.mem_cons_of_mem _ h)
      obtain ⟨e1, e2⟩ := hout c hc2
      rw [e1, e2]
      exact ⟨List.getElem?_set_ne (Ne.symm hci), List.getElem?_set_ne (Ne.symm hci)⟩

/-! ## The whole of `processBlock` -/

theorem processBlock_eq_processBlockIn (P : MidcutterAudioProcessor α) (buffer : AudioBuffer α) :
    processBlock P buffer = processBlockIn (List.range P.totalNumInputChannels) P buffer := by
  unfold processBlock processBlockIn smoothingLoop
  cases clearLoop P buffer <;> rfl

theorem processBlockIn_spec (order : List Nat) (P : MidcutterAudioProcessor α)
    (buffer : AudioBuffer α) (ho : order.Perm (List.range P.totalNumInputChannels))
    (hIn : P.totalNumInputChannels ≤ buffer.length)
    (hOut : P.totalNumOutputChannels ≤ buffer.length)
    (hAvg : P.totalNumInputChannels ≤ P.prevAvg.length) :
    ∃ t, processBlockIn order P buffer = some t ∧
      t.1.totalNumInputChannels = P.totalNumInputChannels ∧
      t.1.totalNumOutputChannels = P.totalNumOutputChannels ∧
      t.1.prevAvg.length = P.prevAvg.length ∧ t.2.length = buffer.length ∧
      (∀ c d p, c < P.totalNumInputChannels → buffer[c]? = some d → P.prevAvg[c]? = some p →
        t.2[c]? = some (sampleLoop p d).1 ∧ t.1.prevAvg[c]? = some (sampleLoop p d).2) ∧
      (∀ c, P.totalNumInputChannels ≤ c → t.1.prevAvg[c]? = P.prevAvg[c]?) ∧
      (∀ c d, P.totalNumInputChannels ≤ c → c < P.totalNumOutputChannels →
        buffer[c]? = some d → t.2[c]? = some (List.replicate d.length 0)) ∧
      (∀ c, P.totalNumInputChannels ≤ c → P.totalNumOutputChannels ≤ c →
        t.2[c]? = buffer[c]?) := by
  have hmem : ∀ c, c ∈ order ↔ c < P.totalNumInputChannels := fun c => by
    rw [ho.mem_iff, List.mem_range]
  have hnd : order.Nodup := ho.nodup_iff.mpr (List.nodup_range _)
  obtain ⟨b, hb, hblen, hbin, hbout⟩ :=
    clearChannels_spec
      (List.range' P.totalNumInputChannels (P.totalNumOutputChannels - P.totalNumInputChannels))
      buffer
      (fun c hc => by
        have := List.mem_range'_1.mp hc
        omega)
      (List.nodup_range' _ _)
  obtain ⟨t, ht, h1, h2, h3, h4, hin, hout⟩ :=
    smoothChannels_spec order (P, b)
      (fun c hc => by
        have := (hmem c).mp hc
        simp only [hblen]
        omega)
      (fun c hc => by
        have := (hmem c).mp hc
        simp only
        omega)
      hnd
  refine ⟨t, ?_, h1, h2, h3, by simpa [hblen] using h4, ?_, ?_, ?_, ?_⟩
  · have : clearLoop P buffer = some b := hb
    simp only [processBlockIn, this]
    exact ht
  · intro c d p hc hd hp
    apply hin c d p ((hmem c).mpr hc) _ hp
    show b[c]? = some d
    rw [hbout c (fun h => by
      have := List.mem_range'_1.mp h
      omega)]
    exact hd
  · intro c hc
    exact (hout c (fun h => by
      have := (hmem c).mp h
      omega)).2
  · intro c d hc1 hc2 hd
    rw [(hout c (fun h => by
      have := (hmem c).mp h
      omega)).1]
    exact hbin c d (List.mem_range'_1.mpr (by omega)) hd
  · intro c hc1 hc2
    rw [(hout c (fun h => by
      have := (hmem c).mp h
      omega)).1]
    exact hbout c (fun h => by
      have := List.mem_range'_1.mp h
      omega)

theorem processBlock_spec (P : MidcutterAudioProcessor α) (buffer : AudioBuffer α)
    (hIn : P.totalNumInputChannels ≤ buffer.length)
    (hOut : P.totalNumOutputChannels ≤ buffer.length)
    (hAvg : P.totalNumInputChannels ≤ P.prevAvg.length) :
    ∃ t, processBlock P buffer = some t ∧
      t.1.totalNumInputChannels = P.totalNumInputChannels ∧
      t.1.totalNumOutputChannels = P.totalNumOutputChannels ∧
      t.1.prevAvg.length = P.prevAvg.length ∧ t.2.length = buffer.length ∧
      (∀ c d p, c < P.totalNumInputChannels → buffer[c]? = some d → P.prevAvg[c]? = some p →
        t.2[c]? = some (sampleLoop p d).1 ∧ t.1.prevAvg[c]? = some (sampleLoop p d).2) ∧
      (∀ c, P.totalNumInputChannels ≤ c → t.1.prevAvg[c]? = P.prevAvg[c]?) ∧
      (∀ c d, P.totalNumInputChannels ≤ c → c < P.totalNumOutputChannels →
        buffer[c]? = some d → t.2[c]? = some (List.replicate d.length 0)) ∧
      (∀ c, P.totalNumInputChannels ≤ c → P.totalNumOutputChannels ≤ c →
        t.2[c]? = buffer[c]?) := by
  rw [processBlock_eq_processBlockIn]
  exact processBlockIn_spec _ P buffer (List.Perm.refl _) hIn hOut hAvg

/-! ## Claims about one sample -/

/-- C1: on a channel whose running average `p` is not the sentinel `-1`,
processing the sample `x` writes to the buffer, and stores as the new running
average, `0.1*p + 0.9*x*x` when `x*x > p` and `0.7*p + 0.3*x*x` when
`x*x <= p`. -/
theorem C1_smoothing_step (p x : α) (hp : p ≠ -1) :
    sampleStep p x =
      if x * x > p then (0.1 * p + 0.9 * (x * x), 0.1 * p + 0.9 * (x * x))
      else (0.7 * p + 0.3 * (x * x), 0.7 * p + 0.3 * (x * x)) := by
  by_cases h : x * x > p
  · rw [if_pos h]
    exact sampleStep_up p x hp h
  · rw [if_neg h]
    exact sampleStep_down p x hp (not_lt.mp h)

theorem C1_smoothing_step_witness :
    ((4 : ℚ) ≠ -1 ∧
      sampleStep (4 : ℚ) 3 =
        if (3 : ℚ) * 3 > 4 then (0.1 * 4 + 0.9 * (3 * 3), 0.1 * 4 + 0.9 * (3 * 3))
        else (0.7 * 4 + 0.3 * (3 * 3), 0.7 * 4 + 0.3 * (3 * 3))) ∧
    ((4 : ℚ) ≠ -1 ∧
      sampleStep (4 : ℚ) 1 =
        if (1 : ℚ) * 1 > 4 then (0.1 * 4 + 0.9 * (1 * 1), 0.1 * 4 + 0.9 * (1 * 1))
        else (0.7 * 4 + 0.3 * (1 * 1), 0.7 * 4 + 0.3 * (1 * 1))) :=
  ⟨⟨by norm_num, C1_smoothing_step 4 3 (by norm_num)⟩,
    ⟨by norm_num, C1_smoothing_step 4 1 (by norm_num)⟩⟩

/-- C2: on a channel whose running average is the sentinel `-1`, processing
the sample `x` sets the running average to exactly `x*x`; this holds for the
step alone and for the first sample of any block run through the sample
loop. -/
theorem C2_first_sample_state (x : α) (rest : List α) :
    (sampleStep (-1) x).2 = x * x ∧
    (sampleLoop (-1) [x]).2 = x * x ∧
    (sampleLoop (-1) (x :: rest)).2 = (sampleLoop (x * x) rest).2 := by
  simp [sampleLoop_cons, sampleLoop_nil, sampleStep_sentinel]

/-- C3 as stated fails: on a fresh channel the sample 3 is left in the buffer
as 3, not as its square 9, both in the step and in the buffer after
`processBlock`. -/
theorem C3_counterexample :
    (sampleStep (-1 : ℚ) 3).1 = 3 ∧ (sampleStep (-1 : ℚ) 3).1 ≠ 3 * 3 ∧
    processBlock (freshProcessor 1 1 1 : MidcutterAudioProcessor ℚ) [[3]] =
      some ({ totalNumInputChannels := 1, totalNumOutputChannels := 1, prevAvg := [9] },
        [[3]]) := by
  refine ⟨by simp [sampleStep_sentinel], by norm_num [sampleStep_sentinel], ?_⟩
  norm_num [processBlock, clearLoop, clearChannels, smoothingLoop, smoothChannels,
    smoothChannel, freshProcessor, sampleLoop, sampleStep, List.range, List.range.loop]

/-- C3, amended: on a channel whose running average is the sentinel `-1` the
sample `x` is left in the buffer unchanged (the code stores `x*x` as the
running average and skips the write); the value left equals `x*x` only when
`x` is 0 or 1. -/
theorem C3_first_sample_output (x : α) (rest : List α) :
    (sampleStep (-1) x).1 = x ∧
    (sampleLoop (-1) (x :: rest)).1.head? = some x ∧
    ((sampleStep (-1) x).1 = x * x ↔ x = 0 ∨ x = 1) := by
  refine ⟨by simp [sampleStep_sentinel], by simp [sampleLoop_cons, sampleStep_sentinel], ?_⟩
  rw [sampleStep_sentinel]
  constructor
  · intro h
    have h2 : x * (x - 1) = 0 := by
      have : x * (x - 1) = x * x - x := by ring
      rw [this, ← h]
      ring
    rcases mul_eq_zero.mp h2 with h0 | h1
    · exact Or.inl h0
    · exact Or.inr (sub_eq_zero.mp h1)
  · rintro (h | h) <;> simp [h]

/-- C10 as stated fails on the `float` arithmetic of the code.  With the
constant input `0.7f` on a fresh channel the second sample has `s = p`
(`0x1.f5c28ep-2`), yet the new running average is `0x1.f5c290p-2`, above
`max p s` and different from `p`.  With `p = 1` and `x = 1 + 2^-23` the squared
sample `s = 1 + 2^-22` exceeds `p`, yet the new running average equals `s`
instead of lying below it. -/
theorem C10_counterexample :
    Binary32.toFloat (7 / 10) = some (11744051 / 16777216) ∧
    Binary32.toFloat ((11744051 / 16777216) * (11744051 / 16777216)) =
      some (16441671 / 33554432) ∧
    Binary32.sampleLoop (-1) [11744051 / 16777216, 11744051 / 16777216] =
      some ([11744051 / 16777216, 16441672 / 33554432], 16441672 / 33554432) ∧
    Binary32.sampleStep (16441671 / 33554432) (11744051 / 16777216) =
      some (16441672 / 33554432, 16441672 / 33554432) ∧
    (16441671 / 33554432 : ℚ) ≠ -1 ∧
    max (16441671 / 33554432 : ℚ) (16441671 / 33554432) < 16441672 / 33554432 ∧
    (16441672 / 33554432 : ℚ) ≠ 16441671 / 33554432 ∧
    Binary32.toFloat ((1 + 1 / 2 ^ 23) * (1 + 1 / 2 ^ 23)) = some (1 + 1 / 2 ^ 22) ∧
    Binary32.sampleStep 1 (1 + 1 / 2 ^ 23) = some (1 + 1 / 2 ^ 22, 1 + 1 / 2 ^ 22) := by
  decide!

/-- C10, amended: in exact real arithmetic (constants 0.1 and 0.7, none of the
roundings of `float`), on a channel with running average `p` other than the
sentinel, the new running average `a` after a sample `x` with `s = x*x`
satisfies `p < a < s` when `s > p` and `s <= a <= p` when `s <= p`; so `a`
lies between `min p s` and `max p s`, and `a = p` exactly when `s = p`. -/
theorem C10_no_overshoot (p x : α) (hp : p ≠ -1) :
    (x * x > p → p < (sampleStep p x).2 ∧ (sampleStep p x).2 < x * x) ∧
    (x * x ≤ p → x * x ≤ (sampleStep p x).2 ∧ (sampleStep p x).2 ≤ p) ∧
    min p (x * x) ≤ (sampleStep p x).2 ∧ (sampleStep p x).2 ≤ max p (x * x) ∧
    ((sampleStep p x).2 = p ↔ x * x = p) := by
  have hup : x * x > p → p < (sampleStep p x).2 ∧ (sampleStep p x).2 < x * x := by
    intro h
    rw [sampleStep_up p x hp h]
    have h' : p < x * x := h
    constructor
    · have e : (0.1 : α) * p + 0.9 * (x * x) = p + 0.9 * (x * x - p) := by ring
      have : (0 : α) < 0.9 * (x * x - p) := mul_pos (by norm_num) (sub_pos.mpr h')
      show p < 0.1 * p + 0.9 * (x * x)
      rw [e]
      linarith
    · have e : (0.1 : α) * p + 0.9 * (x * x) = x * x - 0.1 * (x * x - p) := by ring
      have : (0 : α) < 0.1 * (x * x - p) := mul_pos (by norm_num) (sub_pos.mpr h')
      show 0.1 * p + 0.9 * (x * x) < x * x
      rw [e]
      linarith
  have hdown : x * x ≤ p → x * x ≤ (sampleStep p x).2 ∧ (sampleStep p x).2 ≤ p := by
    intro h
    rw [sampleStep_down p x hp h]
    constructor
    · have e : (0.7 : α) * p + 0.3 * (x * x) = x * x + 0.7 * (p - x * x) := by ring
      have : (0 : α) ≤ 0.7 * (p - x * x) := mul_nonneg (by norm_num) (sub_nonneg.mpr h)
      show x * x ≤ 0.7 * p + 0.3 * (x * x)
      rw [e]
      linarith
    · have e : (0.7 : α) * p + 0.3 * (x * x) = p - 0.3 * (p - x * x) := by ring
      have : (0 : α) ≤ 0.3 * (p - x * x) := mul_nonneg (by norm_num) (sub_nonneg.mpr h)
      show 0.7 * p + 0.3 * (x * x) ≤ p
      rw [e]
      linarith
  refine ⟨hup, hdown, ?_, ?_, ?_⟩
  · rcases lt_or_le p (x * x) with h | h
    · exact le_trans (min_le_left _ _) (le_of_lt (hup h).1)
    · exact le_trans (min_le_right _ _) (hdown h).1
  · rcases lt_or_le p (x * x) with h | h
    · exact le_trans (le_of_lt (hup h).2) (le_max_right _ _)
    · exact le_trans (hdown h).2 (le_max_left _ _)
  · constructor
    · intro ha
      rcases lt_or_le p (x * x) with h | h
      · have := (hup h).1
        rw [ha] at this
        exact absurd this (lt_irrefl _)
      · rw [sampleStep_down p x hp h] at ha
        have e : (0.3 : α) * (x * x - p) = 0 := by
          have : (0.3 : α) * (x * x - p) = (0.7 * p + 0.3 * (x * x)) - p := by ring
          rw [this]
          exact sub_eq_zero.mpr ha
        rcases mul_eq_zero.mp e with h0 | h0
        · norm_num at h0
        · exact sub_eq_zero.mp h0
    · intro hs
      rw [sampleStep_down p x hp (le_of_eq hs), hs]
      show 0.7 * p + 0.3 * p = p
      ring

theorem C10_no_overshoot_witness :
    ((4 : ℚ) ≠ -1 ∧
      (((3 : ℚ) * 3 > 4 →
        (4 : ℚ) < (sampleStep (4 : ℚ) 3).2 ∧ (sampleStep (4 : ℚ) 3).2 < 3 * 3) ∧
      ((3 : ℚ) * 3 ≤ 4 →
        (3 : ℚ) * 3 ≤ (sampleStep (4 : ℚ) 3).2 ∧ (sampleStep (4 : ℚ) 3).2 ≤ 4) ∧
      min (4 : ℚ) (3 * 3) ≤ (sampleStep (4 : ℚ) 3).2 ∧
      (sampleStep (4 : ℚ) 3).2 ≤ max (4 : ℚ) (3 * 3) ∧
      ((sampleStep (4 : ℚ) 3).2 = 4 ↔ (3 : ℚ) * 3 = 4))) ∧
    ((4 : ℚ) ≠ -1 ∧
      (((1 : ℚ) * 1 > 4 →
        (4 : ℚ) < (sampleStep (4 : ℚ) 1).2 ∧ (sampleStep (4 : ℚ) 1).2 < 1 * 1) ∧
      ((1 : ℚ) * 1 ≤ 4 →
        (1 : ℚ) * 1 ≤ (sampleStep (4 : ℚ) 1).2 ∧ (sampleStep (4 : ℚ) 1).2 ≤ 4) ∧
      min (4 : ℚ) (1 * 1) ≤ (sampleStep (4 : ℚ) 1).2 ∧
      (sampleStep (4 : ℚ) 1).2 ≤ max (4 : ℚ) (1 * 1) ∧
      ((sampleStep (4 : ℚ) 1).2 = 4 ↔ (1 : ℚ) * 1 = 4))) :=
  ⟨⟨by norm_num, C10_no_overshoot 4 3 (by norm_num)⟩,
    ⟨by norm_num, C10_no_overshoot 4 1 (by norm_num)⟩⟩

/-! ## Claims about one channel -/

/-- C5: starting from a fresh channel (running average `-1`), after each of
the first `k >= 1` samples of any sequence the running average is `>= 0`; the
running average is the sentinel only before the first sample (`k = 0`), so
the first-sample branch is taken for the first sample and never again. -/
theorem C5_nonneg_invariant (xs : List α) (k : Nat) (hk : k ≤ xs.length) :
    (0 < k → 0 ≤ (sampleLoop (-1) (xs.take k)).2) ∧
    ((sampleLoop (-1) (xs.take k)).2 = -1 ↔ k = 0) := by
  rw [sampleLoop_snd]
  rcases Nat.eq_zero_or_pos k with h0 | hpos
  · subst h0
    simp [runningAvg]
  · have hne : xs.take k ≠ [] := by
      intro h
      have := congrArg List.length h
      simp only [List.length_take, List.length_nil] at this
      omega
    have hnn : 0 ≤ runningAvg (-1) (xs.take k) := runningAvg_nonneg _ _ (Or.inl rfl) hne
    refine ⟨fun _ => hnn, ?_⟩
    constructor
    · intro h
      rw [h] at hnn
      norm_num at hnn
    · intro h
      omega

theorem C5_nonneg_invariant_witness :
    (2 ≤ ([1, 0.5, 2] : List ℚ).length) ∧
    ((0 < 2 → 0 ≤ (sampleLoop (-1) (([1, 0.5, 2] : List ℚ).take 2)).2) ∧
    ((sampleLoop (-1) (([1, 0.5, 2] : List ℚ).take 2)).2 = -1 ↔ 2 = 0)) :=
  ⟨by simp, C5_nonneg_invariant [1, 0.5, 2] 2 (by simp)⟩

/-! ## Claims about a block -/

/-- C4 as stated fails on the example of the specification: two fresh channels
`[0, 0]` and `[3, 0]` become `[0, 0]` and `[3, 6.3]`, not `[9, 6.3]`; the
sample at index 0 of the second channel is 3 while the running average after
that sample is 9. -/
theorem C4_counterexample :
    processBlock (freshProcessor 2 2 2 : MidcutterAudioProcessor ℚ) [[0, 0], [3, 0]] =
      some ({ totalNumInputChannels := 2, totalNumOutputChannels := 2,
              prevAvg := [0, 63 / 10] },
        [[0, 0], [3, 63 / 10]]) ∧
    ([[0, 0], [3, 63 / 10]] : AudioBuffer ℚ) ≠ [[0, 0], [9, 63 / 10]] ∧
    runningAvg (-1 : ℚ) (([3, 0] : List ℚ).take 1) = 9 := by
  refine ⟨?_, by norm_num, by norm_num [runningAvg, advanceAvg]⟩
  norm_num [processBlock, clearLoop, clearChannels, smoothingLoop, smoothChannels,
    smoothChannel, freshProcessor, sampleLoop, sampleStep, List.range, List.range.loop,
    calcNextAvg, smoothingFactorUp, smoothingFactorDown, List.replicate]

/-- C4, amended: for a processed channel `c < totalNumInputChannels` with prior
running average `p` (sentinel or not) and samples `d`, `processBlock` returns;
the channel keeps its length; the sample at index `i` equals the running
average after `d[0], ..., d[i]`, except where the running average before
`d[i]` is the sentinel (index 0 of a fresh channel), where the sample is left
as it was; the stored running average is the one after the last sample. -/
theorem C4_block_scan (P : MidcutterAudioProcessor α) (buffer : AudioBuffer α)
    (hIn : P.totalNumInputChannels ≤ buffer.length)
    (hOut : P.totalNumOutputChannels ≤ buffer.length)
    (hAvg : P.totalNumInputChannels ≤ P.prevAvg.length)
    (c : Nat) (d : List α) (p : α) (hc : c < P.totalNumInputChannels)
    (hd : buffer[c]? = some d) (hp : P.prevAvg[c]? = some p) :
    ∃ t ys, processBlock P buffer = some t ∧ t.2[c]? = some ys ∧ ys.length = d.length ∧
      (∀ i (hi : i < d.length), ys[i]? =
        some (if runningAvg p (d.take i) = -1 then d[i]
              else runningAvg p (d.take (i + 1)))) ∧
      t.1.prevAvg[c]? = some (runningAvg p d) := by
  obtain ⟨t, ht, -, -, -, -, hin, -, -, -⟩ := processBlock_spec P buffer hIn hOut hAvg
  obtain ⟨e1, e2⟩ := hin c d p hc hd hp
  refine ⟨t, (sampleLoop p d).1, ht, e1, sampleLoop_length p d, ?_, ?_⟩
  · intro i hi
    rw [sampleLoop_getElem?, List.getElem?_eq_getElem hi, Option.map_some', sampleStep_fst,
      runningAvg_take_succ p d i hi]
  · rw [e2, sampleLoop_snd]

theorem C4_block_scan_witness :
    ∃ t ys, processBlock (freshProcessor 2 2 2 : MidcutterAudioProcessor ℚ)
        [[0, 0], [3, 0]] = some t ∧
      t.2[1]? = some ys ∧ ys.length = ([3, 0] : List ℚ).length ∧
      (∀ i (hi : i < ([3, 0] : List ℚ).length), ys[i]? =
        some (if runningAvg (-1) (([3, 0] : List ℚ).take i) = -1 then ([3, 0] : List ℚ)[i]
              else runningAvg (-1) (([3, 0] : List ℚ).take (i + 1)))) ∧
      t.1.prevAvg[1]? = some (runningAvg (-1) ([3, 0] : List ℚ)) :=
  C4_block_scan (freshProcessor 2 2 2) [[0, 0], [3, 0]] (by simp [freshProcessor])
    (by simp [freshProcessor]) (by simp [freshProcessor]) 1 [3, 0] (-1)
    (by simp [freshProcessor]) (by simp) (by simp [freshProcessor])

/-- C8: for every buffer and every channel count `N = totalNumInputChannels`
within the buffer and the state array, the smoothing loop returns; the samples
and the running average of every channel with index `>= N` are unchanged; the
number of channels, the number of samples of every channel, the size of the
state array and the two channel counts are the same after the loop as
before. -/
theorem C8_smoothing_frame (s : MidcutterAudioProcessor α × AudioBuffer α)
    (hIn : s.1.totalNumInputChannels ≤ s.2.length)
    (hAvg : s.1.totalNumInputChannels ≤ s.1.prevAvg.length) :
    ∃ t, smoothingLoop s = some t ∧
      (∀ c, s.1.totalNumInputChannels ≤ c →
        t.2[c]? = s.2[c]? ∧ t.1.prevAvg[c]? = s.1.prevAvg[c]?) ∧
      t.2.length = s.2.length ∧
      (∀ c : Nat, (t.2[c]?).map List.length = (s.2[c]?).map List.length) ∧
      t.1.prevAvg.length = s.1.prevAvg.length ∧
      t.1.totalNumInputChannels = s.1.totalNumInputChannels ∧
      t.1.totalNumOutputChannels = s.1.totalNumOutputChannels := by
  obtain ⟨t, ht, h1, h2, h3, h4, hin, hout⟩ :=
    smoothChannels_spec (List.range s.1.totalNumInputChannels) s
      (fun c hc => lt_of_lt_of_le (List.mem_range.mp hc) hIn)
      (fun c hc => lt_of_lt_of_le (List.mem_range.mp hc) hAvg)
      (List.nodup_range _)
  refine ⟨t, ht, ?_, h4, ?_, h3, h1, h2⟩
  · intro c hc
    exact hout c (fun h => absurd (List.mem_range.mp h) (not_lt.mpr hc))
  · intro c
    by_cases hc : c < s.1.totalNumInputChannels
    · have hb : c < s.2.length := lt_of_lt_of_le hc hIn
      have hp : c < s.1.prevAvg.length := lt_of_lt_of_le hc hAvg
      obtain ⟨e1, -⟩ := hin c s.2[c] s.1.prevAvg[c] (List.mem_range.mpr hc)
        (List.getElem?_eq_getElem hb) (List.getElem?_eq_getElem hp)
      rw [e1, List.getElem?_eq_getElem hb]
      simp [sampleLoop_length]
    · rw [(hout c (fun h => hc (List.mem_range.mp h))).1]

theorem C8_smoothing_frame_witness :
    ∃ t, smoothingLoop
        (({ totalNumInputChannels := 1, totalNumOutputChannels := 2, prevAvg := [-1, 5] } :
          MidcutterAudioProcessor ℚ), ([[3, 0], [7, 8]] : AudioBuffer ℚ)) = some t ∧
      (∀ c, 1 ≤ c →
        t.2[c]? = ([[3, 0], [7, 8]] : AudioBuffer ℚ)[c]? ∧
        t.1.prevAvg[c]? = ([-1, 5] : List ℚ)[c]?) ∧
      t.2.length = ([[3, 0], [7, 8]] : AudioBuffer ℚ).length ∧
      (∀ c : Nat, (t.2[c]?).map List.length =
        (([[3, 0], [7, 8]] : AudioBuffer ℚ)[c]?).map List.length) ∧
      t.1.prevAvg.length = ([-1, 5] : List ℚ).length ∧
      t.1.totalNumInputChannels = 1 ∧
      t.1.totalNumOutputChannels = 2 :=
  C8_smoothing_frame
    (({ totalNumInputChannels := 1, totalNumOutputChannels := 2, prevAvg := [-1, 5] } :
      MidcutterAudioProcessor ℚ), ([[3, 0], [7, 8]] : AudioBuffer ℚ))
    (by simp) (by simp)

/-- C6: for every multi-channel block, every prior state and every order in
which the channel loop visits the channels `0 .. totalNumInputChannels-1`,
`processBlock` returns, and the samples and the running average it leaves for
a processed channel `c` are those of running `processBlock` on channel `c`
alone (a one-channel processor holding `c`'s prior running average, a
one-channel buffer holding `c`'s samples): they are a function of `c`'s prior
running average and samples only. -/
theorem C6_channel_independence (order : List Nat) (P : MidcutterAudioProcessor α)
    (buffer : AudioBuffer α) (ho : order.Perm (List.range P.totalNumInputChannels))
    (hIn : P.totalNumInputChannels ≤ buffer.length)
    (hOut : P.totalNumOutputChannels ≤ buffer.length)
    (hAvg : P.totalNumInputChannels ≤ P.prevAvg.length)
    (c : Nat) (d : List α) (p : α) (hc : c < P.totalNumInputChannels)
    (hd : buffer[c]? = some d) (hp : P.prevAvg[c]? = some p) :
    ∃ t u a, processBlockIn order P buffer = some t ∧ processBlock P buffer = some u ∧
      processBlock
        { totalNumInputChannels := 1, totalNumOutputChannels := 1, prevAvg := [p] } [d] =
          some a ∧
      t.2[c]? = a.2[0]? ∧ t.1.prevAvg[c]? = a.1.prevAvg[0]? ∧
      u.2[c]? = a.2[0]? ∧ u.1.prevAvg[c]? = a.1.prevAvg[0]? ∧
      a.2[0]? = some (sampleLoop p d).1 ∧ a.1.prevAvg[0]? = some (sampleLoop p d).2 := by
  obtain ⟨t, ht, -, -, -, -, htin, -, -, -⟩ :=
    processBlockIn_spec order P buffer ho hIn hOut hAvg
  obtain ⟨u, hu, -, -, -, -, huin, -, -, -⟩ := processBlock_spec P buffer hIn hOut hAvg
  obtain ⟨a, ha, -, -, -, -, hain, -, -, -⟩ :=
    processBlock_spec
      ({ totalNumInputChannels := 1, totalNumOutputChannels := 1, prevAvg := [p] } :
        MidcutterAudioProcessor α) [d] (by simp) (by simp) (by simp)
  obtain ⟨t1, t2⟩ := htin c d p hc hd hp
  obtain ⟨u1, u2⟩ := huin c d p hc hd hp
  obtain ⟨a1, a2⟩ := hain 0 d p (by simp) (by simp) (by simp)
  exact ⟨t, u, a, ht, hu, ha, by rw [t1, a1], by rw [t2, a2], by rw [u1, a1],
    by rw [u2, a2], a1, a2⟩

theorem C6_channel_independence_witness :
    ∃ t u a,
      processBlockIn [1, 0] (freshProcessor 2 2 2 : MidcutterAudioProcessor ℚ)
        [[0, 0], [3, 0]] = some t ∧
      processBlock (freshProcessor 2 2 2 : MidcutterAudioProcessor ℚ)
        [[0, 0], [3, 0]] = some u ∧
      processBlock
        ({ totalNumInputChannels := 1, totalNumOutputChannels := 1, prevAvg := [-1] } :
          MidcutterAudioProcessor ℚ) [[3, 0]] = some a ∧
      t.2[1]? = a.2[0]? ∧ t.1.prevAvg[1]? = a.1.prevAvg[0]? ∧
      u.2[1]? = a.2[0]? ∧ u.1.prevAvg[1]? = a.1.prevAvg[0]? ∧
      a.2[0]? = some (sampleLoop (-1 : ℚ) [3, 0]).1 ∧
      a.1.prevAvg[0]? = some (sampleLoop (-1 : ℚ) [3, 0]).2 :=
  C6_channel_independence [1, 0] (freshProcessor 2 2 2) [[0, 0], [3, 0]]
    (by
      have h : List.range (freshProcessor 2 2 2 : MidcutterAudioProcessor ℚ).totalNumInputChannels
          = [0, 1] := by simp [freshProcessor, List.range, List.range.loop]
      rw [h]
      exact List.Perm.swap 0 1 [])
    (by simp [freshProcessor]) (by simp [freshProcessor]) (by simp [freshProcessor])
    1 [3, 0] (-1) (by simp [freshProcessor]) (by simp) (by simp [freshProcessor])

theorem processBlock_empty (P : MidcutterAudioProcessor α) (bufA : AudioBuffer α)
    (hIn : P.totalNumInputChannels ≤ bufA.length)
    (hOut : P.totalNumOutputChannels ≤ bufA.length)
    (hAvg : P.totalNumInputChannels ≤ P.prevAvg.length)
    (hempty : ∀ d ∈ bufA, d = []) : processBlock P bufA = some (P, bufA) := by
  obtain ⟨t1, ht1, a1, a2, a3, a4, ain, aavg, aclr, arest⟩ :=
    processBlock_spec P bufA hIn hOut hAvg
  rw [ht1]
  have hnil : ∀ (c : Nat) (d : List α), bufA[c]? = some d → d = [] := by
    intro c d hd
    exact hempty d (List.getElem?_mem hd)
  have hbuf : t1.2 = bufA := by
    apply List.ext_getElem?
    intro c
    by_cases hcl : c < bufA.length
    · have hA : bufA[c]? = some bufA[c] := List.getElem?_eq_getElem hcl
      have h0 : bufA[c] = [] := hnil c _ hA
      by_cases hc : c < P.totalNumInputChannels
      · obtain ⟨xp, hp⟩ := exists_getElem?_of_lt P.prevAvg c (by omega)
        obtain ⟨e1, -⟩ := ain c _ _ hc hA hp
        rw [e1, hA, h0, sampleLoop_nil]
      · by_cases hc2 : c < P.totalNumOutputChannels
        · rw [aclr c _ (by omega) hc2 hA, hA, h0]
          rfl
        · exact arest c (by omega) (by omega)
    · rw [List.getElem?_eq_none (by omega), List.getElem?_eq_none (by omega)]
  have hst : t1.1 = P := by
    apply MidcutterAudioProcessor.ext
    · exact a1
    · exact a2
    · apply List.ext_getElem?
      intro c
      by_cases hc : c < P.totalNumInputChannels
      · obtain ⟨xa, hA⟩ := exists_getElem?_of_lt bufA c (by omega)
        have h0 : xa = [] := hnil c _ hA
        obtain ⟨xp, hp⟩ := exists_getElem?_of_lt P.prevAvg c (by omega)
        obtain ⟨-, e2⟩ := ain c _ _ hc hA hp
        rw [e2, hp, h0, sampleLoop_nil]
      · exact aavg c (by omega)
  rw [← hbuf, ← hst]

/-- C9: for every prior state and every two blocks `A` and `B` with the same
number of channels, `processBlock` on `A` followed by `processBlock` on `B`
returns, and so does one call on the channel-wise concatenation of `A` and
`B`; the single call leaves, in every channel, the outputs of `A` followed by
the outputs of `B`, and the same processor state.  The empty block with the
same number of channels is returned as it was, with the state unchanged. -/
theorem C9_block_boundary (P : MidcutterAudioProcessor α) (bufA bufB : AudioBuffer α)
    (hlen : bufA.length = bufB.length)
    (hIn : P.totalNumInputChannels ≤ bufA.length)
    (hOut : P.totalNumOutputChannels ≤ bufA.length)
    (hAvg : P.totalNumInputChannels ≤ P.prevAvg.length) :
    (∃ t1 t2 t, processBlock P bufA = some t1 ∧ processBlock t1.1 bufB = some t2 ∧
      processBlock P (List.zipWith (fun a b => a ++ b) bufA bufB) = some t ∧
      t.2 = List.zipWith (fun a b => a ++ b) t1.2 t2.2 ∧ t.1 = t2.1) ∧
    processBlock P (List.replicate bufA.length []) =
      some (P, List.replicate bufA.length []) := by
  constructor
  · obtain ⟨t1, ht1, a1, a2, a3, a4, ain, aavg, aclr, arest⟩ :=
      processBlock_spec P bufA hIn hOut hAvg
    obtain ⟨t2, ht2, b1, b2, b3, b4, bin, bavg, bclr, brest⟩ :=
      processBlock_spec t1.1 bufB (by omega) (by omega) (by omega)
    obtain ⟨t, ht, c1, c2, c3, c4, cin, cavg, cclr, crest⟩ :=
      processBlock_spec P (List.zipWith (fun a b => a ++ b) bufA bufB)
        (by simp [List.length_zipWith]; omega) (by simp [List.length_zipWith]; omega) hAvg
    rw [a1] at bin bavg bclr brest
    rw [a2] at bclr brest
    have hzip : ∀ (c : Nat) (a b : List α), bufA[c]? = some a → bufB[c]? = some b →
        (List.zipWith (fun a b => a ++ b) bufA bufB)[c]? = some (a ++ b) := by
      intro c a b ha hb
      rw [List.getElem?_zipWith, ha, hb]
    refine ⟨t1, t2, t, ht1, ht2, ht, ?_, ?_⟩
    · apply List.ext_getElem?
      intro c
      by_cases hcl : c < bufA.length
      · have hA : bufA[c]? = some bufA[c] := List.getElem?_eq_getElem hcl
        obtain ⟨xb, hB⟩ := exists_getElem?_of_lt bufB c (by omega)
        have hZ := hzip c _ _ hA hB
        by_cases hc : c < P.totalNumInputChannels
        · obtain ⟨xp, hp⟩ := exists_getElem?_of_lt P.prevAvg c (by omega)
          obtain ⟨e1, e2⟩ := ain c _ _ hc hA hp
          obtain ⟨f1, -⟩ := bin c _ _ hc hB e2
          obtain ⟨g1, -⟩ := cin c _ _ hc hZ hp
          rw [g1, List.getElem?_zipWith, e1, f1, sampleLoop_append]
        · by_cases hc2 : c < P.totalNumOutputChannels
          · have e1 := aclr c _ (by omega) hc2 hA
            have f1 := bclr c _ (by omega) hc2 hB
            have g1 := cclr c _ (by omega) hc2 hZ
            rw [g1, List.getElem?_zipWith, e1, f1]
            simp
          · have e1 := arest c (by omega) (by omega)
            have f1 := brest c (by omega) (by omega)
            have g1 := crest c (by omega) (by omega)
            rw [g1, hZ, List.getElem?_zipWith, e1, f1, hA, hB]
      · have hn1 : t.2[c]? = none := List.getElem?_eq_none (by
          rw [c4, List.length_zipWith]
          omega)
        have hn2 : t1.2[c]? = none := List.getElem?_eq_none (by omega)
        rw [hn1, List.getElem?_zipWith, hn2]
    · apply MidcutterAudioProcessor.ext
      · rw [c1, b1, a1]
      · rw [c2, b2, a2]
      · apply List.ext_getElem?
        intro c
        by_cases hc : c < P.totalNumInputChannels
        · obtain ⟨xa, hA⟩ := exists_getElem?_of_lt bufA c (by omega)
          obtain ⟨xb, hB⟩ := exists_getElem?_of_lt bufB c (by omega)
          obtain ⟨xp, hp⟩ := exists_getElem?_of_lt P.prevAvg c (by omega)
          obtain ⟨-, e2⟩ := ain c _ _ hc hA hp
          obtain ⟨-, f2⟩ := bin c _ _ hc hB e2
          obtain ⟨-, g2⟩ := cin c _ _ hc (hzip c _ _ hA hB) hp
          rw [g2, f2, sampleLoop_append]
        · rw [cavg c (by omega), bavg c (by omega), aavg c (by omega)]
  · exact processBlock_empty P _ (by simpa using hIn) (by simpa using hOut) hAvg
      (fun d hd => List.eq_of_mem_replicate hd)

theorem C9_block_boundary_witness :
    (∃ t1 t2 t,
      processBlock (freshProcessor 1 1 1 : MidcutterAudioProcessor ℚ) [[3]] = some t1 ∧
      processBlock t1.1 [[0]] = some t2 ∧
      processBlock (freshProcessor 1 1 1 : MidcutterAudioProcessor ℚ)
        (List.zipWith (fun a b => a ++ b) [[3]] [[0]]) = some t ∧
      t.2 = List.zipWith (fun a b => a ++ b) t1.2 t2.2 ∧ t.1 = t2.1) ∧
    processBlock (freshProcessor 1 1 1 : MidcutterAudioProcessor ℚ)
        (List.replicate ([[3]] : AudioBuffer ℚ).length []) =
      some (freshProcessor 1 1 1, List.replicate ([[3]] : AudioBuffer ℚ).length []) :=
  C9_block_boundary (freshProcessor 1 1 1) [[3]] [[0]] (by simp) (by simp [freshProcessor])
    (by simp [freshProcessor]) (by simp [freshProcessor])

/-! ## The lifecycle hooks -/

/-- C7 as stated fails: the lifecycle hooks do not reset.  After a fresh
channel has processed the sample 2 its running average is 4;
`releaseResources` and `prepareToPlay` leave it at 4, not at the sentinel; the sample 0 processed
next is smoothed against 4 and leaves the running average at 2.8, not at
`0*0`, whereas a fresh channel given the sample 0 ends at 0. -/
theorem C7_counterexample :
    processBlock (freshProcessor 1 1 1 : MidcutterAudioProcessor ℚ) [[2]] =
      some ({ totalNumInputChannels := 1, totalNumOutputChannels := 1, prevAvg := [4] },
        [[2]]) ∧
    (prepareToPlay (44100 : ℚ) 512
      (releaseResources
        ({ totalNumInputChannels := 1, totalNumOutputChannels := 1, prevAvg := [4] } :
          MidcutterAudioProcessor ℚ))).prevAvg = [4] ∧
    processBlock
      (prepareToPlay (44100 : ℚ) 512
        (releaseResources
          ({ totalNumInputChannels := 1, totalNumOutputChannels := 1, prevAvg := [4] } :
            MidcutterAudioProcessor ℚ))) [[0]] =
      some ({ totalNumInputChannels := 1, totalNumOutputChannels := 1, prevAvg := [14 / 5] },
        [[14 / 5]]) ∧
    ([14 / 5] : List ℚ) ≠ [0 * 0] ∧
    processBlock (freshProcessor 1 1 1 : MidcutterAudioProcessor ℚ) [[0]] =
      some ({ totalNumInputChannels := 1, totalNumOutputChannels := 1, prevAvg := [0] },
        [[0]]) := by
  refine ⟨?_, rfl, ?_, by norm_num, ?_⟩ <;>
  norm_num [processBlock, clearLoop, clearChannels, smoothingLoop, smoothChannels,
    smoothChannel, freshProcessor, sampleLoop, sampleStep, List.range, List.range.loop,
    calcNextAvg, smoothingFactorUp, smoothingFactorDown, List.replicate, prepareToPlay,
    releaseResources]

/-- C7, amended: the two lifecycle hooks `prepareToPlay` and
`releaseResources` do not reset: they leave every running average as it was.
For every state `P` of the processor (whatever history of processed samples
left it), a one-sample block `[x]` processed on channel `c` after the hooks
returns, and the sample and the running average it leaves are those of the
ordinary per-sample step from the running average `p` that channel had
before the hooks: the running average becomes `x*x` when `p` is still the
sentinel, and the smoothed value of `calcNextAvg` otherwise. -/
theorem C7_hooks_keep_state (sampleRate : α) (samplesPerBlock : Int)
    (P : MidcutterAudioProcessor α) (buffer : AudioBuffer α)
    (hIn : P.totalNumInputChannels ≤ buffer.length)
    (hOut : P.totalNumOutputChannels ≤ buffer.length)
    (hAvg : P.totalNumInputChannels ≤ P.prevAvg.length)
    (c : Nat) (p x : α) (hc : c < P.totalNumInputChannels)
    (hd : buffer[c]? = some [x]) (hp : P.prevAvg[c]? = some p) :
    (releaseResources P).prevAvg = P.prevAvg ∧
    (prepareToPlay sampleRate samplesPerBlock (releaseResources P)).prevAvg = P.prevAvg ∧
    ∃ t, processBlock (prepareToPlay sampleRate samplesPerBlock (releaseResources P))
        buffer = some t ∧
      t.2[c]? = some [(sampleStep p x).1] ∧
      t.1.prevAvg[c]? = some (sampleStep p x).2 ∧
      (sampleStep p x).2 =
        if p = -1 then x * x
        else calcNextAvg p
          (if x * x > p then smoothingFactorUp else smoothingFactorDown) (x * x) := by
  refine ⟨rfl, rfl, ?_⟩
  obtain ⟨t, ht, -, -, -, -, hin, -, -, -⟩ := processBlock_spec P buffer hIn hOut hAvg
  obtain ⟨e1, e2⟩ := hin c [x] p hc hd hp
  refine ⟨t, ht, ?_, ?_, ?_⟩
  · rw [e1]
    rfl
  · rw [e2]
    rfl
  · by_cases h : p = -1
    · simp [sampleStep, h]
    · simp [sampleStep, h]

theorem C7_hooks_keep_state_witness :
    (releaseResources
      ({ totalNumInputChannels := 1, totalNumOutputChannels := 1, prevAvg := [4] } :
        MidcutterAudioProcessor ℚ)).prevAvg = [4] ∧
    (prepareToPlay (44100 : ℚ) 512
      (releaseResources
        ({ totalNumInputChannels := 1, totalNumOutputChannels := 1, prevAvg := [4] } :
          MidcutterAudioProcessor ℚ))).prevAvg = [4] ∧
    ∃ t, processBlock
        (prepareToPlay (44100 : ℚ) 512
          (releaseResources
            ({ totalNumInputChannels := 1, totalNumOutputChannels := 1, prevAvg := [4] } :
              MidcutterAudioProcessor ℚ))) [[0]] = some t ∧
      t.2[0]? = some [(sampleStep (4 : ℚ) 0).1] ∧
      t.1.prevAvg[0]? = some (sampleStep (4 : ℚ) 0).2 ∧
      (sampleStep (4 : ℚ) 0).2 =
        if (4 : ℚ) = -1 then 0 * 0
        else calcNextAvg (4 : ℚ)
          (if (0 : ℚ) * 0 > 4 then smoothingFactorUp else smoothingFactorDown) (0 * 0) :=
  C7_hooks_keep_state (44100 : ℚ) 512
    ({ totalNumInputChannels := 1, totalNumOutputChannels := 1, prevAvg := [4] } :
      MidcutterAudioProcessor ℚ) [[0]]
    (by simp) (by simp) (by simp) 0 4 0 (by simp) (by simp) (by simp)

end Midcutter
